import Mathlib

set_option maxRecDepth 10000

/-!
Verification of the voice-controlled CLI multiplexer (`main.py`).

The development shallowly embeds the three stateful cores of the program:

* `is_speech` — the energy-based voice-activity detector (`EnergyVAD.is_speech`).
  The source computes `sqrt(mean(frame**2)) > threshold` in floating point;
  here it is embedded in exact arithmetic through the equivalent squared
  comparison `threshold^2 * len(frame) < sum(frame**2)`, and the bridge to the
  literal `sqrt(mean(...))` form is proved for the (nonnegative) threshold.
* `callback` / `runFrames` — the utterance segmenter state machine
  (`AudioRecorder._callback` and `AudioRecorder._finish_utterance`).
* `process` / `processAll` — the command interpreter (`CommandProcessor.process`)
  over a trace of sink events, together with the tmux collaborator state
  (`TmuxController`) and `ensure_sessions`.

Strings are handled at the character-list level; Python's `str.lower`,
`str.strip` and `str.startswith` are modelled for the ASCII range (the
command vocabulary and all session names are ASCII or already lowercase),
and Python's regex word characters `\w` are modelled as ASCII alphanumerics
plus underscore.
-/

/-! ## Configuration constants (main.py, Config section) -/

def SAMPLE_RATE : ℕ := 16000

def FRAME_MS : ℕ := 30

/-- `FRAME_SAMPLES = int(SAMPLE_RATE * FRAME_MS / 1000)` = 480. -/
def FRAME_SAMPLES : ℕ := SAMPLE_RATE * FRAME_MS / 1000

def ENERGY_THRESHOLD : ℤ := 500

def SILENCE_FRAMES : ℕ := 30

def MIN_SPEECH_FRAMES : ℕ := 5

def MAX_RECORD_SECONDS : ℕ := 15

/-- `max_frames = int(MAX_RECORD_SECONDS * SAMPLE_RATE / FRAME_SAMPLES)` from
`AudioRecorder._callback`; the division is exact (= 500), so truncating float
division and natural division agree. -/
def max_frames : ℕ := MAX_RECORD_SECONDS * SAMPLE_RATE / FRAME_SAMPLES

def SESSIONS : List String := ["cli1", "cli2", "cli3", "cli4", "cli5"]

def DEFAULT_SESSION : String := "cli1"

/-! ## EnergyVAD -/

/-- Sum of squared samples of a frame (a frame is the sample list of one
30 ms block, int16 samples embedded as unbounded integers; the source casts
to float32 before squaring precisely so that no int16 overflow occurs). -/
def sumSq (frame : List ℤ) : ℤ := (frame.map fun s => s * s).sum

/-- `EnergyVAD.is_speech`: the source returns
`np.sqrt(np.mean(frame.astype(np.float32) ** 2)) > self.threshold`.
In exact arithmetic, for a nonnegative threshold this is equivalent to
`threshold * threshold * len(frame) < sum(frame**2)`, which is the decidable
form used here; the equivalence with the literal `sqrt(mean(...))` form is
proved in the theorem for claim C3. -/
def is_speech (threshold : ℤ) (frame : List ℤ) : Bool :=
  decide (threshold * threshold * (frame.length : ℤ) < sumSq frame)

/-! ## AudioRecorder segmenter state machine -/

/-- Mutable state of `AudioRecorder` relevant to segmentation:
`_buffer`, `_silence_count`, `_speech_count`, `_recording`. -/
structure RecorderState where
  buffer : List (List ℤ)
  silence_count : ℕ
  speech_count : ℕ
  recording : Bool
deriving DecidableEq

/-- Initial recorder state (constructor of `AudioRecorder`). -/
def initState : RecorderState := ⟨[], 0, 0, false⟩

/-- `AudioRecorder._finish_utterance`: concatenates the buffer into one
utterance, clears the buffer, leaves recording mode and resets both
counters (i.e. returns to `initState`). -/
def finishUtterance (s : RecorderState) : RecorderState × List ℤ :=
  (initState, s.buffer.flatten)

/-- `AudioRecorder._callback` for one frame: returns the next state and the
list of utterances dispatched (the source dispatches each finished utterance
to `on_utterance`; at most one finalize can fire per frame since finishing
empties the buffer). -/
def callback (th : ℤ) (s : RecorderState) (frame : List ℤ) :
    RecorderState × List (List ℤ) :=
  let sp := is_speech th frame
  if s.recording = false then
    if sp then
      let s1 : RecorderState :=
        { s with speech_count := s.speech_count + 1, buffer := s.buffer ++ [frame] }
      if MIN_SPEECH_FRAMES ≤ s1.speech_count then
        ({ s1 with recording := true, silence_count := 0 }, [])
      else
        (s1, [])
    else
      ({ s with speech_count := 0, buffer := [] }, [])
  else
    let s1 : RecorderState := { s with buffer := s.buffer ++ [frame] }
    let r :=
      if sp = false then
        let s2 : RecorderState := { s1 with silence_count := s1.silence_count + 1 }
        if SILENCE_FRAMES ≤ s2.silence_count then
          let fu := finishUtterance s2
          (fu.1, [fu.2])
        else
          (s2, [])
      else
        ({ s1 with silence_count := 0 }, [])
    if max_frames ≤ r.1.buffer.length then
      let fu := finishUtterance r.1
      (fu.1, r.2 ++ [fu.2])
    else
      r

/-- Feed a list of frames through the callback, collecting all emitted
utterances in order. -/
def runFrames (th : ℤ) (s : RecorderState) : List (List ℤ) → RecorderState × List (List ℤ)
  | [] => (s, [])
  | f :: rest =>
    let r := callback th s f
    let r2 := runFrames th r.1 rest
    (r2.1, r.2 ++ r2.2)

/-- `runsBelow k c ds` holds when, starting from a current streak of `c`
consecutive `true` decisions, no streak of `true`s in `ds` ever reaches `k`. -/
def runsBelow (k : ℕ) : ℕ → List Bool → Bool
  | _, [] => true
  | c, d :: rest =>
    if d then decide (c + 1 < k) && runsBelow k (c + 1) rest
    else runsBelow k 0 rest

/-- Final consecutive-silence counter after processing decisions `ds`
starting from counter value `c` (a `true` decision means speech and resets
the counter, a `false` decision increments it). -/
def silAfter (c : ℕ) : List Bool → ℕ
  | [] => c
  | d :: rest => silAfter (if d then 0 else c + 1) rest

/-- `noSilenceReach k c ds` holds when, starting from a consecutive-silence
counter of `c`, no run of `false` (non-speech) decisions in `ds` ever brings
the counter up to `k`. -/
def noSilenceReach (k : ℕ) : ℕ → List Bool → Bool
  | _, [] => true
  | c, d :: rest =>
    if d then noSilenceReach k 0 rest
    else decide (c + 1 < k) && noSilenceReach k (c + 1) rest

/-! ## String helpers (Python semantics, ASCII range) -/

/-- Python `str.lower()` restricted to the ASCII range (`Char.toLower` maps
only `A`–`Z`); the command vocabulary contains no non-ASCII uppercase. -/
def pyLower (s : String) : String := ⟨s.data.map Char.toLower⟩

/-- Python `str.strip()`: remove leading and trailing whitespace. -/
def pyStrip (s : String) : String :=
  ⟨((s.data.dropWhile Char.isWhitespace).reverse.dropWhile Char.isWhitespace).reverse⟩

/-- Python `str.rstrip(".")`: remove every trailing period. -/
def rstripPeriods (s : String) : String :=
  ⟨(s.data.reverse.dropWhile (· == '.')).reverse⟩

/-- Python `str.startswith(pre)`. -/
def pyStartswith (s pre : String) : Bool := pre.data.isPrefixOf s.data

/-- `CommandProcessor.process` line 365: `text.lower().strip().rstrip(".")`. -/
def normalizeText (text : String) : String := rstripPeriods (pyStrip (pyLower text))

/-! ## Regex pattern tables -/

/-- `SESSION_PATTERNS`: each pattern `\bcli\s*(alt1|alt2|alt3)\b` is kept as
its list of alternatives plus the target session, in source dict order. -/
def SESSION_PATTERNS : List (List String × String) :=
  [ (["one", "1", "en"], "cli1"),
    (["two", "2", "to"], "cli2"),
    (["three", "3", "tre"], "cli3"),
    (["four", "4", "fire"], "cli4"),
    (["five", "5", "fem"], "cli5") ]

/-- `SPECIAL_COMMANDS`: each pattern `^(alt1|...|altN)$` is kept as its list
of alternatives plus the tmux key, in source dict order. -/
def SPECIAL_COMMANDS : List (List String × String) :=
  [ (["send it", "enter", "kjør", "send", "trykk enter"], "Enter"),
    (["clear it", "clear", "avbryt", "stopp"], "C-c"),
    (["tab", "tabb"], "Tab"),
    (["up", "opp", "pil opp"], "Up"),
    (["down", "ned", "pil ned"], "Down"),
    (["escape", "esc"], "Escape"),
    (["undo", "angre"], "C-z"),
    (["save", "lagre"], "C-s"),
    (["delete line", "slett linje"], "C-u") ]

/-- Python regex word character `\w` (ASCII range): alphanumeric or `_`. -/
def isWordChar (c : Char) : Bool := c.isAlphanum || c == '_'

/-- Word boundary `\b` directly after an alternative (all alternatives end in
a word character): the remaining text must be empty or start with a
non-word character. -/
def altEndOk : List Char → Bool
  | [] => true
  | c :: _ => !isWordChar c

/-- Does one of the alternatives match at this position, followed by a word
boundary? -/
def matchAltsAt (alts : List String) (s : List Char) : Bool :=
  alts.any fun a => a.data.isPrefixOf s && altEndOk (s.drop a.data.length)

/-- Does `cli\s*(alts)\b` match starting exactly at this position?  The
alternatives contain no whitespace, so the greedy `\s*` maximal munch is the
only viable choice. -/
def matchCliAt (alts : List String) : List Char → Bool
  | 'c' :: 'l' :: 'i' :: rest => matchAltsAt alts (rest.dropWhile Char.isWhitespace)
  | _ => false

/-- Scan of `re.search(r"\bcli\s*(alts)\b", s)`: try every position whose
preceding character is not a word character (`prevWord` tracks the previous
character's word-ness, starting at false for the start of the string). -/
def searchAux (alts : List String) : Bool → List Char → Bool
  | _, [] => false
  | prevWord, c :: rest =>
    (!prevWord && matchCliAt alts (c :: rest)) || searchAux alts (isWordChar c) rest

/-- `re.search(pattern, normalized, re.IGNORECASE)` for one session pattern;
the input is already lowercase, so case-insensitivity is vacuous. -/
def sessionSearch (alts : List String) (s : String) : Bool :=
  searchAux alts false s.data

/-- First session pattern (in table order) matching anywhere in the
normalized text, as in the `for pattern, session in SESSION_PATTERNS.items()`
loop. -/
def matchSession (normalized : String) : Option String :=
  match SESSION_PATTERNS.find? (fun p => sessionSearch p.1 normalized) with
  | some p => some p.2
  | none => none

/-- `re.match(r"^(alts)$", normalized, re.IGNORECASE)` is whole-string match
against one of the alternatives (the input is stripped, hence no trailing
newline, and lowercase). First table entry wins, as in the source loop. -/
def matchSpecial (normalized : String) : Option String :=
  match SPECIAL_COMMANDS.find? (fun p => p.1.any (fun a => a == normalized)) with
  | some p => some p.2
  | none => none

/-! ## Tmux collaborator and command processor -/

/-- Observable calls made to the tmux sink: `send-keys` (with the target
session, the literal flag `-l`, and the key/text payload) and `new-session`. -/
inductive SinkEvent where
  | sendKeys (target : String) (literal : Bool) (keys : String)
  | newSession (name : String)
deriving DecidableEq

/-- Status events pushed to the display. -/
inductive Status where
  | error
  | switched (session : String)
  | sentKey (key : String)
  | typed (text : String)
deriving DecidableEq

/-- `TmuxController` mutable state: the active session. -/
structure TmuxState where
  active : String
deriving DecidableEq

/-- `CommandProcessor.process`: session existence (`tmux has-session`) is the
external predicate `ex`; returns the next tmux state, the sink events issued,
and the status events displayed.  `TmuxController.switch` updates `active`
only when the target exists; a matched session pattern returns from `process`
whether or not the switch succeeded. -/
def process (ex : String → Bool) (st : TmuxState) (text : String) :
    TmuxState × List SinkEvent × List Status :=
  if text == "" || pyStartswith text "[ERROR" then
    (st, [], [Status.error])
  else
    let normalized := normalizeText text
    match matchSession normalized with
    | some session =>
      if ex session then ({ active := session }, [], [Status.switched session])
      else (st, [], [])
    | none =>
      match matchSpecial normalized with
      | some key => (st, [SinkEvent.sendKeys st.active false key], [Status.sentKey key])
      | none => (st, [SinkEvent.sendKeys st.active true text], [Status.typed text])

/-- Process a sequence of transcribed utterances, concatenating the sink and
status traces. -/
def processAll (ex : String → Bool) (st : TmuxState) :
    List String → TmuxState × List SinkEvent × List Status
  | [] => (st, [], [])
  | t :: rest =>
    let r := process ex st t
    let r2 := processAll ex r.1 rest
    (r2.1, r.2.1 ++ r2.2.1, r.2.2 ++ r2.2.2)

/-- `TmuxController.ensure_sessions` over the session list: creating a
session makes it exist for the remainder of the loop.  Returns the final
existence predicate and the `new-session` sink events issued. -/
def ensureSessionsAux (ex : String → Bool) : List String → (String → Bool) × List SinkEvent
  | [] => (ex, [])
  | s :: rest =>
    if ex s then ensureSessionsAux ex rest
    else
      let r := ensureSessionsAux (fun n => n == s || ex n) rest
      (r.1, SinkEvent.newSession s :: r.2)

/-- `TmuxController.ensure_sessions`. -/
def ensure_sessions (ex : String → Bool) : (String → Bool) × List SinkEvent :=
  ensureSessionsAux ex SESSIONS

/-! ## Segmenter lemmas -/

theorem runFrames_append (th : ℤ) (s : RecorderState) (xs ys : List (List ℤ)) :
    runFrames th s (xs ++ ys) =
      ((runFrames th (runFrames th s xs).1 ys).1,
        (runFrames th s xs).2 ++ (runFrames th (runFrames th s xs).1 ys).2) := by
  induction xs generalizing s with
  | nil => simp [runFrames]
  | cons f rest ih => simp [runFrames, ih]

theorem callback_idle_speech_low (th : ℤ) (f : List ℤ) (s : RecorderState)
    (hrec : s.recording = false) (hf : is_speech th f = true)
    (hlow : ¬ MIN_SPEECH_FRAMES ≤ s.speech_count + 1) :
    callback th s f =
      ({ s with speech_count := s.speech_count + 1, buffer := s.buffer ++ [f] }, []) := by
  simp [callback, hrec, hf, hlow]

theorem callback_idle_speech_enter (th : ℤ) (f : List ℤ) (s : RecorderState)
    (hrec : s.recording = false) (hf : is_speech th f = true)
    (hhigh : MIN_SPEECH_FRAMES ≤ s.speech_count + 1) :
    callback th s f =
      ({ s with speech_count := s.speech_count + 1, buffer := s.buffer ++ [f], silence_count := 0, recording := true }, []) := by
  simp [callback, hrec, hf, hhigh]

theorem callback_idle_nonspeech (th : ℤ) (f : List ℤ) (s : RecorderState)
    (hrec : s.recording = false) (hf : is_speech th f = false) :
    callback th s f = ({ s with speech_count := 0, buffer := [] }, []) := by
  simp [callback, hrec, hf]

theorem callback_rec_speech_nocap (th : ℤ) (f : List ℤ) (s : RecorderState)
    (hrec : s.recording = true) (hf : is_speech th f = true)
    (hcap : ¬ max_frames ≤ s.buffer.length + 1) :
    callback th s f = ({ s with buffer := s.buffer ++ [f], silence_count := 0 }, []) := by
  simp [callback, hrec, hf, hcap]

theorem callback_rec_silence_nocap (th : ℤ) (f : List ℤ) (s : RecorderState)
    (hrec : s.recording = true) (hf : is_speech th f = false)
    (hsil : ¬ SILENCE_FRAMES ≤ s.silence_count + 1)
    (hcap : ¬ max_frames ≤ s.buffer.length + 1) :
    callback th s f =
      ({ s with buffer := s.buffer ++ [f], silence_count := s.silence_count + 1 }, []) := by
  simp [callback, hrec, hf, hsil, hcap]

theorem callback_rec_silence_finish (th : ℤ) (f : List ℤ) (s : RecorderState)
    (hrec : s.recording = true) (hf : is_speech th f = false)
    (hsil : SILENCE_FRAMES ≤ s.silence_count + 1) :
    callback th s f = (initState, [(s.buffer ++ [f]).flatten]) := by
  have h0 : ¬ max_frames ≤ initState.buffer.length := by decide
  simp [callback, hrec, hf, hsil, finishUtterance, h0]

theorem callback_rec_cap (th : ℤ) (f : List ℤ) (s : RecorderState)
    (hrec : s.recording = true) (hcap : max_frames ≤ s.buffer.length + 1) :
    callback th s f = (initState, [(s.buffer ++ [f]).flatten]) := by
  have h0 : ¬ max_frames ≤ initState.buffer.length := by decide
  cases hsp : is_speech th f with
  | false =>
    by_cases hsil : SILENCE_FRAMES ≤ s.silence_count + 1
    · simp [callback, hrec, hsp, hsil, finishUtterance, h0]
    · simp [callback, hrec, hsp, hsil, finishUtterance, hcap]
  | true => simp [callback, hrec, hsp, finishUtterance, hcap]

/-- In Idle, a run of speech frames that stays strictly below
`MIN_SPEECH_FRAMES` only accumulates into the provisional buffer. -/
theorem idle_acc (th : ℤ) (a : List (List ℤ)) (s : RecorderState)
    (hrec : s.recording = false) (ha : ∀ f ∈ a, is_speech th f = true)
    (hlt : s.speech_count + a.length < MIN_SPEECH_FRAMES) :
    runFrames th s a =
      ({ s with buffer := s.buffer ++ a, speech_count := s.speech_count + a.length }, []) := by
  induction a generalizing s with
  | nil => simp [runFrames]
  | cons f rest ih =>
    have hf : is_speech th f = true := ha f (by simp)
    have hlow : ¬ MIN_SPEECH_FRAMES ≤ s.speech_count + 1 := by
      simp only [List.length_cons] at hlt; omega
    have hcb := callback_idle_speech_low th f s hrec hf hlow
    have hrest := ih ({ s with speech_count := s.speech_count + 1, buffer := s.buffer ++ [f] })
      (by simp [hrec]) (fun g hg => ha g (by simp [hg]))
      (by simp only [List.length_cons] at hlt; simp; omega)
    simp only [runFrames, hcb, hrest]
    simp [RecorderState.mk.injEq, List.append_assoc]
    omega

/-- In Recording, while no silence run reaches `SILENCE_FRAMES` and the
buffer stays strictly below `max_frames`, frames only accumulate. -/
theorem rec_no_finish (th : ℤ) (b : List (List ℤ)) (s : RecorderState)
    (hrec : s.recording = true)
    (hns : noSilenceReach SILENCE_FRAMES s.silence_count (b.map (is_speech th)) = true)
    (hcap : s.buffer.length + b.length < max_frames) :
    runFrames th s b =
      ({ s with buffer := s.buffer ++ b, silence_count := silAfter s.silence_count (b.map (is_speech th)) }, []) := by
  induction b generalizing s with
  | nil => simp [runFrames, silAfter]
  | cons f rest ih =>
    have hcap1 : ¬ max_frames ≤ s.buffer.length + 1 := by
      simp only [List.length_cons] at hcap; omega
    cases hf : is_speech th f with
    | true =>
      have hcb := callback_rec_speech_nocap th f s hrec hf hcap1
      have hns' : noSilenceReach SILENCE_FRAMES 0 (rest.map (is_speech th)) = true := by
        simpa [noSilenceReach, hf] using hns
      have hrest := ih ({ s with buffer := s.buffer ++ [f], silence_count := 0 })
        (by simp [hrec]) (by simpa using hns')
        (by simp only [List.length_cons] at hcap; simp; omega)
      simp only [runFrames, hcb, hrest]
      simp [RecorderState.mk.injEq, List.append_assoc, silAfter, hf]
    | false =>
      have hstep : s.silence_count + 1 < SILENCE_FRAMES ∧
          noSilenceReach SILENCE_FRAMES (s.silence_count + 1) (rest.map (is_speech th)) = true := by
        simpa [noSilenceReach, hf] using hns
      have hsil : ¬ SILENCE_FRAMES ≤ s.silence_count + 1 := by omega
      have hcb := callback_rec_silence_nocap th f s hrec hf hsil hcap1
      have hrest := ih ({ s with buffer := s.buffer ++ [f], silence_count := s.silence_count + 1 })
        (by simp [hrec]) (by simpa using hstep.2)
        (by simp only [List.length_cons] at hcap; simp; omega)
      simp only [runFrames, hcb, hrest]
      simp [RecorderState.mk.injEq, List.append_assoc, silAfter, hf]

theorem noSilenceReach_append (k c : ℕ) (xs ys : List Bool) :
    noSilenceReach k c (xs ++ ys) =
      (noSilenceReach k c xs && noSilenceReach k (silAfter c xs) ys) := by
  induction xs generalizing c with
  | nil => simp [noSilenceReach, silAfter]
  | cons d rest ih => cases d <;> simp [noSilenceReach, silAfter, ih, Bool.and_assoc]

theorem noSilenceReach_false (k c : ℕ) (ds : List Bool) (h : ∀ d ∈ ds, d = false)
    (hlen : c + ds.length < k) : noSilenceReach k c ds = true := by
  induction ds generalizing c with
  | nil => simp [noSilenceReach]
  | cons d rest ih =>
    have hd : d = false := h d (by simp)
    subst hd
    simp only [List.length_cons] at hlen
    simp only [noSilenceReach, if_neg Bool.false_ne_true]
    rw [ih (c + 1) (fun g hg => h g (by simp [hg])) (by omega)]
    simp
    omega

theorem silAfter_false (c : ℕ) (ds : List Bool) (h : ∀ d ∈ ds, d = false) :
    silAfter c ds = c + ds.length := by
  induction ds generalizing c with
  | nil => simp [silAfter]
  | cons d rest ih =>
    have hd : d = false := h d (by simp)
    subst hd
    simp only [silAfter, if_neg Bool.false_ne_true, List.length_cons]
    rw [ih (c + 1) (fun g hg => h g (by simp [hg]))]
    omega

theorem flatten_length_const (l : List (List ℤ)) (L : ℕ) (h : ∀ f ∈ l, f.length = L) :
    l.flatten.length = l.length * L := by
  induction l with
  | nil => simp
  | cons f rest ih =>
    simp only [List.flatten_cons, List.length_append, List.length_cons,
      h f (by simp), ih (fun g hg => h g (by simp [hg]))]
    ring

/-- While the speech streak stays strictly below `MIN_SPEECH_FRAMES`, the
segmenter stays in Idle and emits nothing. -/
theorem idle_safe (th : ℤ) (fs : List (List ℤ)) (s : RecorderState)
    (hrec : s.recording = false)
    (h : runsBelow MIN_SPEECH_FRAMES s.speech_count (fs.map (is_speech th)) = true) :
    (runFrames th s fs).2 = [] ∧ (runFrames th s fs).1.recording = false := by
  induction fs generalizing s with
  | nil => simpa [runFrames] using hrec
  | cons f rest ih =>
    cases hf : is_speech th f with
    | true =>
      have hh : s.speech_count + 1 < MIN_SPEECH_FRAMES ∧
          runsBelow MIN_SPEECH_FRAMES (s.speech_count + 1) (rest.map (is_speech th)) = true := by
        simpa [runsBelow, hf] using h
      have hlow : ¬ MIN_SPEECH_FRAMES ≤ s.speech_count + 1 := by omega
      have hcb := callback_idle_speech_low th f s hrec hf hlow
      have hrest := ih ({ s with speech_count := s.speech_count + 1, buffer := s.buffer ++ [f] })
        (by simp [hrec]) (by simpa using hh.2)
      simp only [runFrames, hcb]
      simpa using hrest
    | false =>
      have hh : runsBelow MIN_SPEECH_FRAMES 0 (rest.map (is_speech th)) = true := by
        simpa [runsBelow, hf] using h
      have hcb := callback_idle_nonspeech th f s hrec hf
      have hrest := ih ({ s with speech_count := 0, buffer := [] })
        (by simp [hrec]) (by simpa using hh)
      simp only [runFrames, hcb]
      simpa using hrest

/-- C4: for every frame sequence in which fewer than `MIN_SPEECH_FRAMES`
consecutive speech-classified frames ever occur, the segmenter — started in
the Idle state — never emits any utterance. -/
theorem C4_no_utterance_below_min_speech (fs : List (List ℤ))
    (h : runsBelow MIN_SPEECH_FRAMES 0 (fs.map (is_speech ENERGY_THRESHOLD)) = true) :
    (runFrames ENERGY_THRESHOLD initState fs).2 = [] :=
  (idle_safe ENERGY_THRESHOLD fs initState rfl h).1

/-- Witness for C4: four frames with speech streaks of length at most two
produce no utterance. -/
theorem C4_witness :
    (runFrames ENERGY_THRESHOLD initState [[1000], [1000], [0], [1000]]).2 = [] :=
  C4_no_utterance_below_min_speech [[1000], [1000], [0], [1000]] (by decide)

theorem runFrames_append_eq (th : ℤ) (s s1 s2 : RecorderState) (xs ys o1 o2 : List (List ℤ))
    (h1 : runFrames th s xs = (s1, o1)) (h2 : runFrames th s1 ys = (s2, o2)) :
    runFrames th s (xs ++ ys) = (s2, o1 ++ o2) := by
  rw [runFrames_append, h1]
  simp [h2]

/-- C5: starting from Idle, exactly `MIN_SPEECH_FRAMES` consecutive speech
frames immediately followed by exactly `SILENCE_FRAMES` consecutive
non-speech frames (each frame holding `L` samples) emit exactly one
utterance of `(MIN_SPEECH_FRAMES + SILENCE_FRAMES) * L` samples. -/
theorem C5_single_utterance (a b : List (List ℤ)) (L : ℕ)
    (haN : a.length = MIN_SPEECH_FRAMES) (hbN : b.length = SILENCE_FRAMES)
    (ha : ∀ f ∈ a, is_speech ENERGY_THRESHOLD f = true)
    (hb : ∀ f ∈ b, is_speech ENERGY_THRESHOLD f = false)
    (hL : ∀ f ∈ a ++ b, f.length = L) :
    (runFrames ENERGY_THRESHOLD initState (a ++ b)).2.map List.length =
      [(MIN_SPEECH_FRAMES + SILENCE_FRAMES) * L] := by
  have hane : a ≠ [] := by
    intro h; rw [h] at haN; simp [MIN_SPEECH_FRAMES] at haN
  have hbne : b ≠ [] := by
    intro h; rw [h] at hbN; simp [SILENCE_FRAMES] at hbN
  obtain ⟨a', a5, rfl⟩ : ∃ a' a5, a = a' ++ [a5] :=
    ⟨a.dropLast, a.getLast hane, (List.dropLast_append_getLast hane).symm⟩
  obtain ⟨b', bl, rfl⟩ : ∃ b' bl, b = b' ++ [bl] :=
    ⟨b.dropLast, b.getLast hbne, (List.dropLast_append_getLast hbne).symm⟩
  have ha'len : a'.length = 4 := by
    simp [MIN_SPEECH_FRAMES] at haN; omega
  have hb'len : b'.length = 29 := by
    simp [SILENCE_FRAMES] at hbN; omega
  have h1 : runFrames ENERGY_THRESHOLD initState a' = (⟨a', 0, 4, false⟩, []) := by
    have := idle_acc ENERGY_THRESHOLD a' initState rfl
      (fun g hg => ha g (by simp [hg]))
      (by simp [initState, ha'len, MIN_SPEECH_FRAMES])
    simpa [initState, ha'len] using this
  have h2 : runFrames ENERGY_THRESHOLD (⟨a', 0, 4, false⟩ : RecorderState) [a5] =
      (⟨a' ++ [a5], 0, 5, true⟩, []) := by
    have h5 : is_speech ENERGY_THRESHOLD a5 = true := ha a5 (by simp)
    have := callback_idle_speech_enter ENERGY_THRESHOLD a5 ⟨a', 0, 4, false⟩ rfl h5
      (by simp [MIN_SPEECH_FRAMES])
    simp [runFrames, this]
  have hbmem : ∀ d ∈ b'.map (is_speech ENERGY_THRESHOLD), d = false := by
    intro d hd
    obtain ⟨g, hg, rfl⟩ := List.mem_map.mp hd
    exact hb g (by simp [hg])
  have hns : noSilenceReach SILENCE_FRAMES 0 (b'.map (is_speech ENERGY_THRESHOLD)) = true :=
    noSilenceReach_false SILENCE_FRAMES 0 _ hbmem
      (by simp [hb'len, SILENCE_FRAMES])
  have hsa : silAfter 0 (b'.map (is_speech ENERGY_THRESHOLD)) = 29 := by
    rw [silAfter_false 0 _ hbmem]; simp [hb'len]
  have h3 : runFrames ENERGY_THRESHOLD (⟨a' ++ [a5], 0, 5, true⟩ : RecorderState) b' =
      (⟨(a' ++ [a5]) ++ b', 29, 5, true⟩, []) := by
    have := rec_no_finish ENERGY_THRESHOLD b' ⟨a' ++ [a5], 0, 5, true⟩ rfl
      (by simpa using hns)
      (by simp [ha'len, hb'len]; decide)
    simpa [hsa] using this
  have h4 : runFrames ENERGY_THRESHOLD (⟨(a' ++ [a5]) ++ b', 29, 5, true⟩ : RecorderState) [bl] =
      (initState, [(((a' ++ [a5]) ++ b') ++ [bl]).flatten]) := by
    have hbl : is_speech ENERGY_THRESHOLD bl = false := hb bl (by simp)
    have hcb := callback_rec_silence_finish ENERGY_THRESHOLD bl
      ⟨(a' ++ [a5]) ++ b', 29, 5, true⟩ rfl hbl (by simp [SILENCE_FRAMES])
    simp only [runFrames, hcb, List.append_nil]
  have hA : runFrames ENERGY_THRESHOLD initState (a' ++ [a5]) =
      (⟨a' ++ [a5], 0, 5, true⟩, []) :=
    runFrames_append_eq _ _ _ _ _ _ _ _ h1 h2
  have hB : runFrames ENERGY_THRESHOLD (⟨a' ++ [a5], 0, 5, true⟩ : RecorderState) (b' ++ [bl]) =
      (initState, [] ++ [(((a' ++ [a5]) ++ b') ++ [bl]).flatten]) :=
    runFrames_append_eq _ _ _ _ _ _ _ _ h3 h4
  have hAll := runFrames_append_eq _ _ _ _ _ _ _ _ hA hB
  rw [hAll]
  simp only [List.nil_append, List.map_cons, List.map_nil]
  rw [show ((a' ++ [a5]) ++ b') ++ [bl] = (a' ++ [a5]) ++ (b' ++ [bl]) from by
    simp [List.append_assoc]]
  rw [flatten_length_const _ L hL]
  simp [ha'len, hb'len, MIN_SPEECH_FRAMES, SILENCE_FRAMES]

/-- Witness for C5: five one-sample speech frames followed by thirty
one-sample silence frames yield one utterance of 35 samples. -/
theorem C5_witness :
    (runFrames ENERGY_THRESHOLD initState
        (List.replicate 5 [1000] ++ List.replicate 30 [0])).2.map List.length =
      [(MIN_SPEECH_FRAMES + SILENCE_FRAMES) * 1] :=
  C5_single_utterance (List.replicate 5 [1000]) (List.replicate 30 [0]) 1
    (by decide) (by decide) (by decide) (by decide) (by decide)

/-- From the initial state, `MIN_SPEECH_FRAMES` consecutive speech frames
move the segmenter into Recording with all of them buffered. -/
theorem reach_recording (th : ℤ) (a : List (List ℤ))
    (halen : a.length = MIN_SPEECH_FRAMES) (ha : ∀ f ∈ a, is_speech th f = true) :
    runFrames th initState a = (⟨a, 0, MIN_SPEECH_FRAMES, true⟩, []) := by
  have hane : a ≠ [] := by
    intro h; rw [h] at halen; simp [MIN_SPEECH_FRAMES] at halen
  obtain ⟨a', a5, rfl⟩ : ∃ a' a5, a = a' ++ [a5] :=
    ⟨a.dropLast, a.getLast hane, (List.dropLast_append_getLast hane).symm⟩
  have ha'len : a'.length = 4 := by
    simp [MIN_SPEECH_FRAMES] at halen; omega
  have h1 : runFrames th initState a' = (⟨a', 0, 4, false⟩, []) := by
    have := idle_acc th a' initState rfl (fun g hg => ha g (by simp [hg]))
      (by simp [initState, ha'len, MIN_SPEECH_FRAMES])
    simpa [initState, ha'len] using this
  have h2 : runFrames th (⟨a', 0, 4, false⟩ : RecorderState) [a5] =
      (⟨a' ++ [a5], 0, MIN_SPEECH_FRAMES, true⟩, []) := by
    have h5 : is_speech th a5 = true := ha a5 (by simp)
    have hcb := callback_idle_speech_enter th a5 ⟨a', 0, 4, false⟩ rfl h5
      (by simp [MIN_SPEECH_FRAMES])
    simp [runFrames, hcb, MIN_SPEECH_FRAMES]
  have := runFrames_append_eq _ _ _ _ _ _ _ _ h1 h2
  simpa using this

/-- C6: while Recording (entered by an initial burst of `MIN_SPEECH_FRAMES`
speech frames) and with no run of `SILENCE_FRAMES` consecutive non-speech
frames, the segmenter force-finalizes exactly when the buffered frame count
reaches `max_frames = int(MAX_RECORD_SECONDS * SAMPLE_RATE / FRAME_SAMPLES)`:
a sequence of that length emits exactly one utterance of
`max_frames * L` samples (even when the final frame is speech), and any
shorter sequence emits nothing. -/
theorem C6_max_length_cap (fs : List (List ℤ)) (L : ℕ)
    (hhead : ∀ f ∈ fs.take MIN_SPEECH_FRAMES, is_speech ENERGY_THRESHOLD f = true)
    (hns : noSilenceReach SILENCE_FRAMES 0
      ((fs.drop MIN_SPEECH_FRAMES).map (is_speech ENERGY_THRESHOLD)) = true)
    (hL : ∀ f ∈ fs, f.length = L) :
    (fs.length = max_frames →
      (runFrames ENERGY_THRESHOLD initState fs).2.map List.length = [max_frames * L]) ∧
    (fs.length < max_frames →
      (runFrames ENERGY_THRESHOLD initState fs).2 = []) := by
  have hmax : max_frames = 500 := by decide
  have hminS : MIN_SPEECH_FRAMES = 5 := rfl
  have hsplit : fs.take MIN_SPEECH_FRAMES ++ fs.drop MIN_SPEECH_FRAMES = fs :=
    List.take_append_drop _ _
  constructor
  · intro h500
    have h5le : MIN_SPEECH_FRAMES ≤ fs.length := by omega
    have halen : (fs.take MIN_SPEECH_FRAMES).length = MIN_SPEECH_FRAMES := by
      rw [List.length_take]; exact Nat.min_eq_left h5le
    have hstart := reach_recording ENERGY_THRESHOLD (fs.take MIN_SPEECH_FRAMES) halen hhead
    have hrlen : (fs.drop MIN_SPEECH_FRAMES).length = 495 := by
      rw [List.length_drop]; omega
    have hrne : fs.drop MIN_SPEECH_FRAMES ≠ [] := by
      intro h; rw [h] at hrlen; simp at hrlen
    obtain ⟨rest', lst, hrs⟩ : ∃ rest' lst, fs.drop MIN_SPEECH_FRAMES = rest' ++ [lst] :=
      ⟨(fs.drop MIN_SPEECH_FRAMES).dropLast, (fs.drop MIN_SPEECH_FRAMES).getLast hrne,
        (List.dropLast_append_getLast hrne).symm⟩
    have hr'len : rest'.length = 494 := by
      rw [hrs] at hrlen; simp at hrlen; omega
    have hns' : noSilenceReach SILENCE_FRAMES 0
        (rest'.map (is_speech ENERGY_THRESHOLD)) = true := by
      rw [hrs, List.map_append, noSilenceReach_append] at hns
      simp at hns
      exact hns.1
    have hcap3 : (fs.take MIN_SPEECH_FRAMES).length + rest'.length < max_frames := by
      rw [halen, hr'len]; omega
    have h3 := rec_no_finish ENERGY_THRESHOLD rest'
      (⟨fs.take MIN_SPEECH_FRAMES, 0, MIN_SPEECH_FRAMES, true⟩ : RecorderState) rfl
      (by simpa using hns') (by simpa using hcap3)
    have h3' : runFrames ENERGY_THRESHOLD
        (⟨fs.take MIN_SPEECH_FRAMES, 0, MIN_SPEECH_FRAMES, true⟩ : RecorderState) rest' =
        (⟨fs.take MIN_SPEECH_FRAMES ++ rest',
          silAfter 0 (rest'.map (is_speech ENERGY_THRESHOLD)), MIN_SPEECH_FRAMES,
          true⟩, []) := by
      simpa using h3
    have hcap4 : max_frames ≤ (fs.take MIN_SPEECH_FRAMES ++ rest').length + 1 := by
      rw [List.length_append, halen, hr'len]; omega
    have hcb := callback_rec_cap ENERGY_THRESHOLD lst
      (⟨fs.take MIN_SPEECH_FRAMES ++ rest',
        silAfter 0 (rest'.map (is_speech ENERGY_THRESHOLD)), MIN_SPEECH_FRAMES,
        true⟩ : RecorderState) rfl (by simpa using hcap4)
    have h4 : runFrames ENERGY_THRESHOLD
        (⟨fs.take MIN_SPEECH_FRAMES ++ rest',
          silAfter 0 (rest'.map (is_speech ENERGY_THRESHOLD)), MIN_SPEECH_FRAMES,
          true⟩ : RecorderState) [lst] =
        (initState, [((fs.take MIN_SPEECH_FRAMES ++ rest') ++ [lst]).flatten]) := by
      simp only [runFrames, hcb, List.append_nil]
    have hB := runFrames_append_eq _ _ _ _ _ _ _ _ h3' h4
    have hAll := runFrames_append_eq _ _ _ _ _ _ _ _ hstart hB
    rw [← hrs, hsplit] at hAll
    rw [hAll]
    simp only [List.nil_append, List.map_cons, List.map_nil]
    rw [show (fs.take MIN_SPEECH_FRAMES ++ rest') ++ [lst] = fs from by
      rw [List.append_assoc, ← hrs, hsplit]]
    rw [flatten_length_const _ L hL, h500]
  · intro hlt
    by_cases h5 : fs.length < MIN_SPEECH_FRAMES
    · have htake : fs.take MIN_SPEECH_FRAMES = fs :=
        List.take_of_length_le (le_of_lt h5)
      have := idle_acc ENERGY_THRESHOLD fs initState rfl
        (fun g hg => hhead g (by rw [htake]; exact hg))
        (by simp [initState]; omega)
      simp [this]
    · push_neg at h5
      have halen : (fs.take MIN_SPEECH_FRAMES).length = MIN_SPEECH_FRAMES := by
        rw [List.length_take]; exact Nat.min_eq_left h5
      have hstart := reach_recording ENERGY_THRESHOLD (fs.take MIN_SPEECH_FRAMES) halen hhead
      have hcapr : (fs.take MIN_SPEECH_FRAMES).length + (fs.drop MIN_SPEECH_FRAMES).length <
          max_frames := by
        rw [halen, List.length_drop]; omega
      have hrest := rec_no_finish ENERGY_THRESHOLD (fs.drop MIN_SPEECH_FRAMES)
        (⟨fs.take MIN_SPEECH_FRAMES, 0, MIN_SPEECH_FRAMES, true⟩ : RecorderState) rfl
        (by simpa using hns) (by simpa using hcapr)
      have hrest' : runFrames ENERGY_THRESHOLD
          (⟨fs.take MIN_SPEECH_FRAMES, 0, MIN_SPEECH_FRAMES, true⟩ : RecorderState)
          (fs.drop MIN_SPEECH_FRAMES) =
          (⟨fs.take MIN_SPEECH_FRAMES ++ fs.drop MIN_SPEECH_FRAMES,
            silAfter 0 ((fs.drop MIN_SPEECH_FRAMES).map (is_speech ENERGY_THRESHOLD)),
            MIN_SPEECH_FRAMES, true⟩, []) := by
        simpa using hrest
      have hAll := runFrames_append_eq _ _ _ _ _ _ _ _ hstart hrest'
      rw [hsplit] at hAll
      simp [hAll]

/-- Witness for C6: 500 one-sample speech frames are force-finalized into a
single 500-sample utterance. -/
theorem C6_witness :
    (runFrames ENERGY_THRESHOLD initState (List.replicate 500 [1000])).2.map List.length =
      [max_frames * 1] :=
  (C6_max_length_cap (List.replicate 500 [1000]) 1 (by decide) (by decide)
    (by decide)).1 (by decide)

theorem sumSq_nonneg (frame : List ℤ) : 0 ≤ sumSq frame := by
  apply List.sum_nonneg
  intro x hx
  obtain ⟨s, hs, rfl⟩ := List.mem_map.mp hx
  exact mul_self_nonneg s

/-- C3: for every frame whose RMS energy `sqrt(mean(sample^2))` is at most
the configured threshold, `is_speech` returns false; for every frame whose
RMS is strictly greater, it returns true; and an all-zero frame returns
false.  (The embedding is total and pure, so there are no failure modes; the
RMS is taken in exact real arithmetic, abstracting the float32 rounding of
the source.) -/
theorem C3_is_speech_spec (frame : List ℤ) (n : ℕ) :
    (Real.sqrt ((sumSq frame : ℝ) / (frame.length : ℝ)) ≤ ((ENERGY_THRESHOLD : ℤ) : ℝ) →
      is_speech ENERGY_THRESHOLD frame = false) ∧
    (((ENERGY_THRESHOLD : ℤ) : ℝ) < Real.sqrt ((sumSq frame : ℝ) / (frame.length : ℝ)) →
      is_speech ENERGY_THRESHOLD frame = true) ∧
    is_speech ENERGY_THRESHOLD (List.replicate n 0) = false := by
  have hkey : is_speech ENERGY_THRESHOLD frame = true ↔
      (500 : ℤ) * 500 * (frame.length : ℤ) < sumSq frame := by
    simp [is_speech, ENERGY_THRESHOLD]
  have h500 : ((ENERGY_THRESHOLD : ℤ) : ℝ) = 500 := by norm_num [ENERGY_THRESHOLD]
  have hzero : ∀ m : ℕ, is_speech ENERGY_THRESHOLD (List.replicate m 0) = false := by
    intro m
    have hz : sumSq (List.replicate m (0 : ℤ)) = 0 := by
      simp [sumSq, List.map_replicate]
    simp [is_speech, hz, ENERGY_THRESHOLD]
  refine ⟨?_, ?_, hzero n⟩
  · intro h
    cases hsp : is_speech ENERGY_THRESHOLD frame with
    | false => rfl
    | true =>
      exfalso
      have hZ := hkey.mp hsp
      rcases Nat.eq_zero_or_pos frame.length with hn | hn
      · have hemp : frame = [] := List.length_eq_zero.mp hn
        subst hemp
        simp [sumSq] at hZ
      · have hnR : (0 : ℝ) < (frame.length : ℝ) := by exact_mod_cast hn
        have hR : (500 : ℝ) * 500 * (frame.length : ℝ) < (sumSq frame : ℝ) := by
          exact_mod_cast hZ
        have hdiv : (500 : ℝ) ^ 2 < (sumSq frame : ℝ) / (frame.length : ℝ) := by
          rw [lt_div_iff₀ hnR, pow_two]
          exact hR
        have hsqrt : (500 : ℝ) < Real.sqrt ((sumSq frame : ℝ) / (frame.length : ℝ)) :=
          (Real.lt_sqrt (by norm_num)).mpr hdiv
        rw [h500] at h
        exact absurd hsqrt (not_lt.mpr h)
  · intro h
    rcases Nat.eq_zero_or_pos frame.length with hn | hn
    · exfalso
      have hemp : frame = [] := List.length_eq_zero.mp hn
      subst hemp
      rw [h500] at h
      simp [sumSq, Real.sqrt_zero] at h
      exact absurd h (by norm_num)
    · have hnR : (0 : ℝ) < (frame.length : ℝ) := by exact_mod_cast hn
      rw [h500] at h
      have hdiv : (500 : ℝ) ^ 2 < (sumSq frame : ℝ) / (frame.length : ℝ) :=
        (Real.lt_sqrt (by norm_num)).mp h
      have hR : (500 : ℝ) * 500 * (frame.length : ℝ) < (sumSq frame : ℝ) := by
        rw [lt_div_iff₀ hnR, pow_two] at hdiv
        exact hdiv
      rw [hkey]
      exact_mod_cast hR

/-- Witness for C3: a full 480-sample all-zero frame has RMS 0 ≤ 500 and is
classified as non-speech. -/
theorem C3_witness : is_speech ENERGY_THRESHOLD (List.replicate 480 (0 : ℤ)) = false :=
  (C3_is_speech_spec (List.replicate 480 0) 480).1 (by
    have hz : sumSq (List.replicate 480 (0 : ℤ)) = 0 := by
      simp [sumSq, List.map_replicate]
    rw [hz]
    norm_num [Real.sqrt_zero, ENERGY_THRESHOLD])

/-! ## Normalization lemmas -/

theorem head_dropWhile_false (p : Char → Bool) (l : List Char) :
    ∀ c ∈ (l.dropWhile p).head?, p c = false := by
  induction l with
  | nil => simp [List.dropWhile]
  | cons x xs ih =>
    by_cases hx : p x
    · simpa [List.dropWhile, hx] using ih
    · simp [List.dropWhile, hx]

/-- `rstrip(".")` splits a character list into a dot-free-tail part and the
run of trailing periods it removes. -/
theorem rstrip_decomp (l : List Char) :
    l = (l.reverse.dropWhile (· == '.')).reverse ++
      List.replicate ((l.reverse.takeWhile (· == '.')).length) '.' ∧
    ∀ c ∈ ((l.reverse.dropWhile (· == '.')).reverse).getLast?, c ≠ '.' := by
  constructor
  · set k := (l.reverse.takeWhile (· == '.')).length with hk
    have ht : l.reverse.takeWhile (· == '.') = List.replicate k '.' := by
      apply List.eq_replicate_of_mem
      intro b hb
      have := List.mem_takeWhile_imp hb
      simpa using this
    calc l = l.reverse.reverse := (List.reverse_reverse l).symm
      _ = (List.takeWhile (· == '.') l.reverse ++ List.dropWhile (· == '.') l.reverse).reverse := by
          rw [List.takeWhile_append_dropWhile]
      _ = (List.dropWhile (· == '.') l.reverse).reverse ++
            (List.takeWhile (· == '.') l.reverse).reverse := by
          rw [List.reverse_append]
      _ = (List.dropWhile (· == '.') l.reverse).reverse ++ List.replicate k '.' := by
          rw [ht, List.reverse_replicate]
  · intro c hc
    rw [List.getLast?_reverse] at hc
    have := head_dropWhile_false (· == '.') l.reverse c hc
    simpa using this

/-- Counterexample to C2 as stated: the source applies `rstrip(".")`, which
removes every trailing period, so `"hi.."` normalizes to `"hi"`, not to the
claimed `"hi."`. -/
theorem C2_counterexample :
    normalizeText "hi.." = "hi" ∧ normalizeText "hi.." ≠ "hi." :=
  ⟨by decide, by decide⟩

/-- C2 (amended): for every input text, normalization produces the input
lowercased and whitespace-trimmed with ALL trailing periods removed — the
lowercased trimmed text is the normalized text followed by some run of
periods, and the normalized text itself never ends in a period (so an input
ending in two periods keeps none). -/
theorem C2_normalize_spec (text : String) :
    ∃ k : ℕ, (pyStrip (pyLower text)).data =
      (normalizeText text).data ++ List.replicate k '.' ∧
      ∀ c ∈ (normalizeText text).data.getLast?, c ≠ '.' := by
  obtain ⟨h1, h2⟩ := rstrip_decomp (pyStrip (pyLower text)).data
  exact ⟨_, h1, h2⟩

/-! ## Command interpreter claims -/

/-- Counterexample to C1 as stated: two consecutive literal utterances are
injected back-to-back with NO space injection between them — the code keeps
no pending-separator flag at all (`CommandProcessor.process` simply calls
`send_keys(text)`). -/
theorem C1_counterexample :
    (processAll (fun _ => true) ⟨DEFAULT_SESSION⟩ ["open the file", "and run it"]).2.1 =
      [SinkEvent.sendKeys "cli1" true "open the file",
        SinkEvent.sendKeys "cli1" true "and run it"] ∧
    (processAll (fun _ => true) ⟨DEFAULT_SESSION⟩ ["open the file", "and run it"]).2.1 ≠
      [SinkEvent.sendKeys "cli1" true "open the file",
        SinkEvent.sendKeys "cli1" true " ",
        SinkEvent.sendKeys "cli1" true "and run it"] :=
  ⟨by decide, by decide⟩

/-- C1 (amended): for two consecutive literal-text utterances processed with
no intervening key or session-switch command, the sink receives the first
text and then immediately the second text, with no injected space between
them; the interpreter maintains no pending-separator state. -/
theorem C1_consecutive_literals (ex : String → Bool) (st : TmuxState) (t1 t2 : String)
    (h1ok : (t1 == "" || pyStartswith t1 "[ERROR") = false)
    (h1s : matchSession (normalizeText t1) = none)
    (h1c : matchSpecial (normalizeText t1) = none)
    (h2ok : (t2 == "" || pyStartswith t2 "[ERROR") = false)
    (h2s : matchSession (normalizeText t2) = none)
    (h2c : matchSpecial (normalizeText t2) = none) :
    (processAll ex st [t1, t2]).2.1 =
      [SinkEvent.sendKeys st.active true t1, SinkEvent.sendKeys st.active true t2] := by
  simp [processAll, process, h1ok, h1s, h1c, h2ok, h2s, h2c]

/-- Witness for C1: the two spec utterances from the default session. -/
theorem C1_witness :
    (processAll (fun _ => true) ⟨"cli1"⟩ ["open the file", "and run it"]).2.1 =
      [SinkEvent.sendKeys "cli1" true "open the file",
        SinkEvent.sendKeys "cli1" true "and run it"] :=
  C1_consecutive_literals (fun _ => true) ⟨"cli1"⟩ "open the file" "and run it"
    (by decide) (by decide) (by decide) (by decide) (by decide) (by decide)

/-- C7: input matching a session-switch pattern updates the active session
and emits a "switched" status exactly when the target session exists; for a
non-existent target, the state is unchanged and no sink injection or status
event occurs. -/
theorem C7_session_switch (ex : String → Bool) (st : TmuxState) (text target : String)
    (hok : (text == "" || pyStartswith text "[ERROR") = false)
    (hm : matchSession (normalizeText text) = some target) :
    (ex target = true →
      process ex st text = (⟨target⟩, [], [Status.switched target])) ∧
    (ex target = false → process ex st text = (st, [], [])) := by
  constructor
  · intro hex
    simp [process, hok, hm, hex]
  · intro hex
    simp [process, hok, hm, hex]

/-- Witness for C7: "cli two" switches to the existing session cli2. -/
theorem C7_witness :
    process (fun s => s == "cli2") ⟨"cli1"⟩ "cli two" =
      (⟨"cli2"⟩, [], [Status.switched "cli2"]) :=
  (C7_session_switch (fun s => s == "cli2") ⟨"cli1"⟩ "cli two" "cli2"
    (by decide) (by decide)).1 (by decide)

/-- C8: the input "send it" matches the special-command table, sends exactly
one Enter key event targeting the active session, and a subsequent literal
utterance is injected without a leading space (the code keeps no
pending-separator flag, so no space is ever injected). -/
theorem C8_send_it_enter (ex : String → Bool) (st : TmuxState) (t : String)
    (hok : (t == "" || pyStartswith t "[ERROR") = false)
    (hs : matchSession (normalizeText t) = none)
    (hc : matchSpecial (normalizeText t) = none) :
    processAll ex st ["send it", t] =
      (st, [SinkEvent.sendKeys st.active false "Enter", SinkEvent.sendKeys st.active true t],
        [Status.sentKey "Enter", Status.typed t]) := by
  have h0 : (("send it" : String) == "" || pyStartswith "send it" "[ERROR") = false := by decide
  have h0' : pyStartswith "send it" "[ERROR" = false := by decide
  have h1 : matchSession (normalizeText "send it") = none := by decide
  have h2 : matchSpecial (normalizeText "send it") = some "Enter" := by decide
  simp [processAll, process, h0, h0', h1, h2, hok, hs, hc]

/-- Witness for C8: "send it" then "hello". -/
theorem C8_witness :
    processAll (fun _ => true) ⟨"cli1"⟩ ["send it", "hello"] =
      (⟨"cli1"⟩,
        [SinkEvent.sendKeys "cli1" false "Enter", SinkEvent.sendKeys "cli1" true "hello"],
        [Status.sentKey "Enter", Status.typed "hello"]) :=
  C8_send_it_enter (fun _ => true) ⟨"cli1"⟩ "hello" (by decide) (by decide) (by decide)

/-- C10: when the normalized input matches a session-switch pattern whose
target does not exist, the interpreter consumes the whole utterance and
stops: the special-command table is never consulted, nothing is injected,
no status is emitted, and the state is unchanged. -/
theorem C10_switch_consumes_input (ex : String → Bool) (st : TmuxState) (text target : String)
    (hok : (text == "" || pyStartswith text "[ERROR") = false)
    (hm : matchSession (normalizeText text) = some target)
    (hex : ex target = false) :
    process ex st text = (st, [], []) := by
  simp [process, hok, hm, hex]

/-- Witness for C10: "cli two" with no existing sessions is fully consumed
even though nothing happens. -/
theorem C10_witness :
    process (fun _ => false) ⟨"cli1"⟩ "cli two" = (⟨"cli1"⟩, [], []) :=
  C10_switch_consumes_input (fun _ => false) ⟨"cli1"⟩ "cli two" "cli2"
    (by decide) (by decide) (by decide)

/-! ## ensure_sessions claims -/

theorem ensureAux_mono (l : List String) (ex : String → Bool) (n : String)
    (h : ex n = true) : (ensureSessionsAux ex l).1 n = true := by
  induction l generalizing ex with
  | nil => simpa [ensureSessionsAux] using h
  | cons s rest ih =>
    by_cases hs : ex s = true
    · simp [ensureSessionsAux, hs]
      exact ih ex h
    · simp only [Bool.not_eq_true] at hs
      simp [ensureSessionsAux, hs]
      exact ih _ (by simp [h])

theorem ensureAux_no_create (l : List String) (ex : String → Bool) (n : String)
    (h : ex n = true) : SinkEvent.newSession n ∉ (ensureSessionsAux ex l).2 := by
  induction l generalizing ex with
  | nil => simp [ensureSessionsAux]
  | cons s rest ih =>
    by_cases hs : ex s = true
    · simp [ensureSessionsAux, hs]
      exact ih ex h
    · simp only [Bool.not_eq_true] at hs
      simp [ensureSessionsAux, hs]
      constructor
      · intro hns
        rw [hns] at h
        simp [h] at hs
      · exact ih _ (by simp [h])

theorem ensureAux_all (l : List String) (ex : String → Bool) :
    ∀ s ∈ l, (ensureSessionsAux ex l).1 s = true := by
  induction l generalizing ex with
  | nil => simp
  | cons x rest ih =>
    intro s hs
    by_cases hx : ex x = true
    · rcases List.mem_cons.mp hs with rfl | hmem
      · simp [ensureSessionsAux, hx]
        exact ensureAux_mono rest ex s hx
      · simp [ensureSessionsAux, hx]
        exact ih ex s hmem
    · simp only [Bool.not_eq_true] at hx
      rcases List.mem_cons.mp hs with rfl | hmem
      · simp [ensureSessionsAux, hx]
        exact ensureAux_mono rest _ s (by simp)
      · simp [ensureSessionsAux, hx]
        exact ih _ s hmem

theorem ensureAux_no_events (l : List String) (ex : String → Bool)
    (h : ∀ s ∈ l, ex s = true) : (ensureSessionsAux ex l).2 = [] := by
  induction l generalizing ex with
  | nil => simp [ensureSessionsAux]
  | cons x rest ih =>
    simp [ensureSessionsAux, h x (by simp)]
    exact ih ex (fun s hs => h s (by simp [hs]))

/-- C9: `ensure_sessions` never issues a `new-session` call for a session
that already exists, and running it again after one pass (when every session
in the table exists) issues no create call at all: the operation is
idempotent in its session-creation side effects. -/
theorem C9_ensure_sessions_idempotent (ex : String → Bool) (name : String)
    (h : ex name = true) :
    SinkEvent.newSession name ∉ (ensure_sessions ex).2 ∧
    (ensure_sessions (ensure_sessions ex).1).2 = [] := by
  constructor
  · exact ensureAux_no_create SESSIONS ex name h
  · exact ensureAux_no_events SESSIONS _ (ensureAux_all SESSIONS ex)

/-- Witness for C9: with every session already existing, cli1 is never
re-created and a second pass creates nothing. -/
theorem C9_witness :
    SinkEvent.newSession "cli1" ∉ (ensure_sessions (fun _ => true)).2 ∧
    (ensure_sessions (ensure_sessions (fun _ => true)).1).2 = [] :=
  C9_ensure_sessions_idempotent (fun _ => true) "cli1" rfl
